import Mathlib

/-!
Verification development for the WatchDog imputation supervisor
(`src/WatchDog/watchdog/watcher.py`).

The Python source is shallowly embedded below.  VCF body lines are
modelled as structured records: the code only ever inspects a line via
`line.split('\t')` (column 0 = chromosome, column 1 = position,
column 2 = id, column 7 = the `k=v;k=v` INFO block), so a record stores
those projections directly; the conversion `fltr_field_type(v)` of an
attribute value is modelled by storing attribute values as rationals.
Python floats are modelled as exact rationals.
-/

namespace Watchdog

/-- One non-header VCF data line, as the fields the watcher reads:
`v[0]` chromosome, `v[1]` position, `v[2]` id, and `v[7]` the INFO
block split into `key=value` pairs. -/
structure VcfRecord where
  chrom : String
  pos : ℕ
  rid : String
  info : List (String × ℚ)
deriving DecidableEq

/-- The current working VCF: header lines plus data records in
dataset-native order. -/
structure Vcf where
  header : List String
  recs : List VcfRecord
deriving DecidableEq

/-- The scores one record contributes in `split_out_current_window`:
for every `k=v` INFO pair with `k == self.fltr_field` the value is
appended (`scores.append(self.fltr_field_type(v))`). -/
def rec_scores (fld : String) (r : VcfRecord) : List ℚ :=
  (r.info.filter (fun kv => decide (kv.1 = fld))).map Prod.snd

/-- All scores collected over the window records, in record order
(the `for line in ...` loop of `split_out_current_window`). -/
def collect_scores (fld : String) (recs : List VcfRecord) : List ℚ :=
  recs.flatMap (rec_scores fld)

/-- The score of a record that carries the quality field exactly once. -/
def score1 (fld : String) (r : VcfRecord) : ℚ :=
  (rec_scores fld r).headD 0

/-- `np.quantile(scores, f)` with the default linear interpolation:
given the ascending sort `a` of `scores`, the virtual index is
`h = f * (n - 1)`, and the result is
`a[i] + (h - i) * (a[i+1] - a[i])` for `i = floor h` (the `i+1` access
falls back to `a[i]` when out of range, which matches numpy for
`f < 1`).  `np.quantile` of an empty list is an error (`none`). -/
def np_quantile (scores : List ℚ) (f : ℚ) : Option ℚ :=
  if scores.isEmpty then none
  else
    let a := scores.insertionSort (· ≤ ·)
    let n : ℕ := scores.length
    let h : ℚ := f * ((n : ℚ) - 1)
    let i : ℕ := (Int.floor h).toNat
    let lo := a.getD i 0
    let hi := a.getD (i + 1) lo
    some (lo + (h - (i : ℚ)) * (hi - lo))

/-- `Watcher.split_out_current_window`, on the non-header records of the
current window (header lines are copied through unchanged and carry no
scores).  Collect `scores` while accumulating `lines`, take the
`np.quantile(scores, self.fltr_threshold)` cutoff, then walk
`zip(lines, scores)`: a pair with `score >= quantile_cutoff` is printed
(retained, original order), otherwise `num_dropped` is incremented and
the record becomes a dropped locus.  Returns
(retained records, dropped records, `num_dropped`); `none` models the
`np.quantile` error on an empty score list. -/
def split_out_current_window (fld : String) (f : ℚ) (recs : List VcfRecord) :
    Option (List VcfRecord × List VcfRecord × ℕ) :=
  let lines := recs
  let scores := collect_scores fld recs
  (np_quantile scores f).map (fun q =>
    let pairs := lines.zip scores
    ((pairs.filter (fun p => decide (q ≤ p.2))).map Prod.fst,
     (pairs.filter (fun p => decide (¬ q ≤ p.2))).map Prod.fst,
     (pairs.filter (fun p => decide (¬ q ≤ p.2))).length))

/-- `bcftools view -r chrom:start-end` on the current VCF, i.e. the
record part of `Watcher.current_vcf_lines(chromosome, start, end)`:
the records of the region, in dataset-native order.  `end = none`
models the open-ended region string `chrom:start-` produced by
passing `end=''`; the code clamps `start = max(0, start)`. -/
def view_recs (d : Vcf) (c : String) (s : ℕ) (e : Option ℕ) : List VcfRecord :=
  let s2 := max 0 s
  d.recs.filter (fun r =>
    decide (r.chrom = c) && decide (s2 ≤ r.pos) &&
      (match e with
       | none => true
       | some e2 => decide (r.pos ≤ e2)))

/-- The reassembly phase of `Watcher.filter_window`, once the inner
retry loop has produced the retained window dataset `good`.  Region A
is the call `current_vcf_lines(end=cur_window_start - 1, header=True)`,
whose `start` argument defaults to `self.cur_window_start`; region B is
the non-header lines of the good-window file; region C is
`current_vcf_lines(start=cur_window_end + 1, end='')`.  Header lines
are emitted only by the region-A call. -/
def filter_window_stitch (d : Vcf) (c : String) (ws we : ℕ)
    (good : List VcfRecord) : Vcf :=
  { header := d.header,
    recs := view_recs d c ws (some (ws - 1)) ++ good ++ view_recs d c (we + 1) none }

/-! ### Process supervisor (`Watcher.watch_beagle`) -/

/-- Event seen by one iteration of the supervisor read loop: either a
line arrived within `check_every` seconds (`line ""` is end-of-file,
since empty bytes are falsy) or `asyncio.wait_for` timed out. -/
inductive BeagleEv
  | line (s : String)
  | tick
deriving DecidableEq

/-- Exit of `watch_beagle`: normal return (`True`),
`BeagleTimeoutError`, `BeagleHeapError`, or an uncaught fatal
exception escaping `_parse_current_info` (`TypeError` when a line
matches one of the known prefixes but fails its regex so the
subscript on `None` blows up, or `ValueError` when `int('')` is
applied to an all-comma marker count).  Only the first three are
classified failures; `fatalParse` aborts the whole run. -/
inductive Outcome
  | completed
  | stallTimeout
  | memoryExhausted
  | fatalParse
deriving DecidableEq

/-- The watcher state that `watch_beagle` touches: the cumulative
stall-wait counter `self.total_waiting`, whether `self.process` is a
live handle (not `None`), whether the child has been sent a kill
signal, and the set of files on disk. -/
structure SupSt where
  total_waiting : ℕ
  handle : Bool
  child_killed : Bool
  files : List String
deriving DecidableEq

/-- `line.startswith('ERROR: java.lang.OutOfMemoryError:')`, the check
in `_parse_current_info` that raises `BeagleHeapError`. -/
def oom_line (s : String) : Bool :=
  "ERROR: java.lang.OutOfMemoryError:".data.isPrefixOf s.data

/-- Python `str.isspace` on the characters `strip` removes; the same
six ASCII characters form the regex class `\s` on this input. -/
def py_isspace (c : Char) : Bool :=
  decide (c = ' ') || decide (c = '\t') || decide (c = '\n') ||
    decide (c = '\r') || decide (c = '\x0b') || decide (c = '\x0c')

/-- Result of `_parse_current_info` on one line: it returns normally
(`ok`, possibly after updating the window-tracker fields), raises
`BeagleHeapError` (`oom`), or crashes with an uncaught
`TypeError`/`ValueError` (`fatal`). -/
inductive ParseResult
  | ok
  | oom
  | fatal
deriving DecidableEq

/-- Consume a literal prefix, as the literal parts of a regex do. -/
def drop_lit (pat s : List Char) : Option (List Char) :=
  if pat.isPrefixOf s then some (s.drop pat.length) else none

/-- `re.match('Window \d+ \(([^:]+):(\d+)-(\d+)\)', line)` succeeds.
Each greedy piece is followed by a character it cannot consume
(`\d+` by a space, `[^:]+` by `:`, the next `\d+` by `-`, the last by
`)`), so maximal munch is equivalent to the backtracking regex; the
pattern is prefix-anchored only, trailing text is allowed. -/
def window_info_ok (s : String) : Bool :=
  match drop_lit "Window ".data s.data with
  | none => false
  | some r1 =>
    let p1 := r1.span Char.isDigit
    if p1.1.isEmpty then false
    else match drop_lit " (".data p1.2 with
      | none => false
      | some r3 =>
        let p2 := r3.span (fun c => decide (c ≠ ':'))
        if p2.1.isEmpty then false
        else match p2.2 with
          | ':' :: r5 =>
            let p3 := r5.span Char.isDigit
            if p3.1.isEmpty then false
            else match p3.2 with
              | '-' :: r7 =>
                let p4 := r7.span Char.isDigit
                if p4.1.isEmpty then false
                else match p4.2 with
                  | ')' :: _ => true
                  | _ => false
              | _ => false
          | _ => false

/-- `re.match('^Reference samples:\s+(\d+)$', line)` succeeds; `$`
matches at the end of the string or before one trailing newline, and
the captured digits always parse with `int`. -/
def ref_samples_ok (s : String) : Bool :=
  match drop_lit "Reference samples:".data s.data with
  | none => false
  | some r1 =>
    let p1 := r1.span py_isspace
    if p1.1.isEmpty then false
    else
      let p2 := p1.2.span Char.isDigit
      if p2.1.isEmpty then false
      else match p2.2 with
        | [] => true
        | ['\n'] => true
        | _ => false

/-- `re.match('^Study markers:\s+([,\d]+)$', line)` succeeds AND
`int(group.replace(',', ''))` does not raise, i.e. the matched group
contains at least one digit (an all-comma group matches the regex but
then `int('')` raises `ValueError`). -/
def study_markers_ok (s : String) : Bool :=
  match drop_lit "Study markers:".data s.data with
  | none => false
  | some r1 =>
    let p1 := r1.span py_isspace
    if p1.1.isEmpty then false
    else
      let p2 := p1.2.span (fun c => c.isDigit || decide (c = ','))
      if p2.1.isEmpty then false
      else if !p2.1.any Char.isDigit then false
      else match p2.2 with
        | [] => true
        | ['\n'] => true
        | _ => false

/-- `Watcher._parse_current_info`: the `elif` chain on the line's
prefix.  A line starting with one of the three progress prefixes that
fails its regex (or yields an unparseable number) crashes with an
uncaught exception (`fatal`); an out-of-memory line raises
`BeagleHeapError` (`oom`); anything else returns normally (`ok`). -/
def parse_current_info (s : String) : ParseResult :=
  if "Window".data.isPrefixOf s.data then
    (if window_info_ok s then ParseResult.ok else ParseResult.fatal)
  else if "Reference samples:".data.isPrefixOf s.data then
    (if ref_samples_ok s then ParseResult.ok else ParseResult.fatal)
  else if "Study markers:".data.isPrefixOf s.data then
    (if study_markers_ok s then ParseResult.ok else ParseResult.fatal)
  else if oom_line s then ParseResult.oom
  else ParseResult.ok

/-- The read loop of `Watcher.watch_beagle` over a finite trace of
events.  On a line: EOF breaks out, waits for exit and clears the
handle; otherwise `_parse_current_info(line)` runs *before* the
counter reset, so `BeagleHeapError` and an uncaught fatal parse
exception both leave `total_waiting` (and the handle) untouched; only
when the parse returns normally is `total_waiting` reset to 0.  On a
timeout: add `check_every`, and once `total_waiting >= timeout`, kill
the child, delete `out_prefix + '.vcf.gz'` and `out_prefix + '.log'`
if present, and raise `BeagleTimeoutError`.  An exhausted trace
(`none`) means the loop is still waiting. -/
def watch_beagle (timeout check_every : ℕ) (out_pfx : String) :
    SupSt → List BeagleEv → Option Outcome × SupSt
  | st, [] => (none, st)
  | st, BeagleEv.line s :: rest =>
    if s = "" then
      (some Outcome.completed, { st with handle := false })
    else
      match parse_current_info s with
      | ParseResult.oom => (some Outcome.memoryExhausted, st)
      | ParseResult.fatal => (some Outcome.fatalParse, st)
      | ParseResult.ok =>
        watch_beagle timeout check_every out_pfx { st with total_waiting := 0 } rest
  | st, BeagleEv.tick :: rest =>
    let tw := st.total_waiting + check_every
    if timeout ≤ tw then
      (some Outcome.stallTimeout,
       { st with
           total_waiting := tw,
           child_killed := true,
           files := st.files.filter
             (fun f2 => decide (f2 ≠ out_pfx ++ ".vcf.gz") &&
                        decide (f2 ≠ out_pfx ++ ".log")) })
    else
      watch_beagle timeout check_every out_pfx { st with total_waiting := tw } rest

/-! ### Heap-growth policy (`Watcher.run` and `Watcher.filter_window`,
`except BeagleHeapError` branches) -/

/-- `self.heap_size.replace('g', '')`: remove every `g` character. -/
def strip_g (s : String) : String :=
  String.mk (s.data.filter (fun c => decide (c ≠ 'g')))

/-- Decimal digit to character, as produced by Python `str` on a
natural number. -/
def digit_char : ℕ → Char
  | 0 => '0'
  | 1 => '1'
  | 2 => '2'
  | 3 => '3'
  | 4 => '4'
  | 5 => '5'
  | 6 => '6'
  | 7 => '7'
  | 8 => '8'
  | _ => '9'

/-- Fuel-indexed decimal printer (most significant digit first). -/
def nat_digits_aux : ℕ → ℕ → List Char → List Char
  | 0, _, acc => acc
  | fuel + 1, n, acc =>
    if n < 10 then digit_char n :: acc
    else nat_digits_aux fuel (n / 10) (digit_char (n % 10) :: acc)

/-- Python `str(n)` for a natural number. -/
def nat_to_str (n : ℕ) : String :=
  String.mk (nat_digits_aux (n + 1) n [])

/-- Python `int(s)` for a decimal string: an error (`none`) unless the
string is a non-empty run of digits. -/
def str_to_nat (s : String) : Option ℕ :=
  if !s.data.isEmpty && s.data.all Char.isDigit then
    some (s.data.foldl (fun a c => 10 * a + (c.toNat - 48)) 0)
  else none

/-- One `BeagleHeapError` recovery:
`old = int(heap_size.replace('g', '')); heap_size = str(old + 10) + 'g'`.
This identical code appears both in the outer loop of `Watcher.run`
and in the inner filtering sub-loop of `Watcher.filter_window`. -/
def bump_heap (s : String) : Option String :=
  (str_to_nat (strip_g s)).map (fun n => nat_to_str (n + 10) ++ "g")

/-- Heap size after `n` consecutive `BeagleHeapError` classifications. -/
def heap_after : ℕ → String → Option String
  | 0, s => some s
  | n + 1, s => (bump_heap s).bind (heap_after n)

/-- The canonical heap string Python produces for value `m`. -/
def heap_str (m : ℕ) : String :=
  nat_to_str m ++ "g"

/-! ### Record stream reader text layer (`Watcher.current_vcf_lines`) -/

/-- Python `line.strip()`: drop leading and trailing whitespace. -/
def py_strip (s : String) : String :=
  String.mk (((s.data.dropWhile py_isspace).reverse.dropWhile py_isspace).reverse)

/-- The per-line processing of the `current_vcf_lines` read loop:
`line = line.decode('utf-8').strip()` and `if line != '': yield line`,
applied to the raw toolkit output lines. -/
def current_vcf_lines_text (raw : List String) : List String :=
  (raw.map py_strip).filter (fun l => decide (l ≠ ""))

/-! ### Decimal printing and parsing round trip -/

/-- Every character emitted by `digit_char` is a decimal digit. -/
lemma digit_char_isDigit (n : ℕ) : (digit_char n).isDigit = true := by
  unfold digit_char
  split <;> decide

/-- For an actual digit the numeric value is recovered by `toNat - 48`. -/
lemma digit_char_val (n : ℕ) (h : n < 10) : (digit_char n).toNat - 48 = n := by
  interval_cases n <;> decide

/-- A digit character is not the letter `g`. -/
lemma isDigit_ne_g (c : Char) (h : c.isDigit = true) : c ≠ 'g' := by
  intro hc
  subst hc
  simp [Char.isDigit] at h

/-- The shape of the base-10 power that threads through the fold over
the digits of `n`. -/
def pow_digits : ℕ → ℕ → ℕ
  | 0, _ => 1
  | fuel + 1, n => if n < 10 then 10 else 10 * pow_digits fuel (n / 10)

lemma foldl_nat_digits_aux (step : ℕ → Char → ℕ)
    (hstep : ∀ a c, step a c = 10 * a + (c.toNat - 48)) :
    ∀ (fuel n : ℕ) (acc : List Char) (a : ℕ), n < fuel →
      (nat_digits_aux fuel n acc).foldl step a
        = acc.foldl step (a * pow_digits fuel n + n) := by
  intro fuel
  induction fuel with
  | zero => intro n acc a h; omega
  | succ fuel ih =>
    intro n acc a h
    by_cases h10 : n < 10
    · rw [nat_digits_aux, if_pos h10, pow_digits, if_pos h10]
      simp only [List.foldl_cons, hstep]
      rw [digit_char_val n h10]
      ring_nf
    · rw [nat_digits_aux, if_neg h10, pow_digits, if_neg h10]
      have hlt : n / 10 < fuel := by omega
      rw [ih (n / 10) _ a hlt]
      simp only [List.foldl_cons, hstep]
      rw [digit_char_val (n % 10) (Nat.mod_lt n (by omega))]
      have hdm : 10 * (n / 10) + n % 10 = n := Nat.div_add_mod n 10
      have : 10 * (a * pow_digits fuel (n / 10) + n / 10) + n % 10
          = a * (10 * pow_digits fuel (n / 10)) + n := by
        rw [show a * (10 * pow_digits fuel (n / 10))
            = 10 * (a * pow_digits fuel (n / 10)) by ring]
        omega
      rw [this]

lemma nat_digits_aux_cons (fuel n : ℕ) (acc : List Char) (h : n < fuel) :
    ∃ c cs, nat_digits_aux fuel n acc = c :: cs := by
  induction fuel generalizing n acc with
  | zero => omega
  | succ fuel ih =>
    by_cases h10 : n < 10
    · exact ⟨_, _, by rw [nat_digits_aux, if_pos h10]⟩
    · rw [nat_digits_aux, if_neg h10]
      exact ih (n / 10) _ (by omega)

lemma nat_digits_aux_digits (fuel n : ℕ) (acc : List Char)
    (hacc : ∀ c ∈ acc, c.isDigit = true) :
    ∀ c ∈ nat_digits_aux fuel n acc, c.isDigit = true := by
  induction fuel generalizing n acc with
  | zero => simpa [nat_digits_aux] using hacc
  | succ fuel ih =>
    intro c hc
    rw [nat_digits_aux] at hc
    by_cases h10 : n < 10
    · rw [if_pos h10] at hc
      rcases List.mem_cons.mp hc with rfl | hc
      · exact digit_char_isDigit n
      · exact hacc c hc
    · rw [if_neg h10] at hc
      refine ih (n / 10) _ ?_ c hc
      intro c2 hc2
      rcases List.mem_cons.mp hc2 with rfl | hc2
      · exact digit_char_isDigit _
      · exact hacc c2 hc2

/-- Python round trip: `int(str(n)) = n`. -/
lemma str_to_nat_nat_to_str (n : ℕ) : str_to_nat (nat_to_str n) = some n := by
  have hdig : ∀ c ∈ nat_digits_aux (n + 1) n [], c.isDigit = true :=
    nat_digits_aux_digits (n + 1) n [] (by simp)
  obtain ⟨c, cs, hcons⟩ := nat_digits_aux_cons (n + 1) n [] (by omega)
  rw [str_to_nat, nat_to_str]
  rw [if_pos]
  · have := foldl_nat_digits_aux (fun a c => 10 * a + (c.toNat - 48))
      (fun _ _ => rfl) (n + 1) n [] 0 (by omega)
    simp only [List.foldl_nil] at this
    simp [this]
  · simp only [Bool.and_eq_true, Bool.not_eq_true', List.all_eq_true]
    constructor
    · show (nat_digits_aux (n + 1) n []).isEmpty = false
      rw [hcons]
      rfl
    · exact hdig

/-- The digits of `str(n)` never contain the letter `g`, so
`(str(n) + 'g').replace('g', '') = str(n)`. -/
lemma strip_g_heap_str (m : ℕ) : strip_g (heap_str m) = nat_to_str m := by
  have hdig := nat_digits_aux_digits (m + 1) m [] (by simp)
  have hdata : (heap_str m).data = nat_digits_aux (m + 1) m [] ++ ['g'] := by
    simp [heap_str, nat_to_str, String.data_append]
  rw [strip_g, hdata, List.filter_append]
  have h1 : (nat_digits_aux (m + 1) m []).filter (fun c => decide (c ≠ 'g'))
      = nat_digits_aux (m + 1) m [] := by
    rw [List.filter_eq_self]
    intro c hc
    simpa using isDigit_ne_g c (hdig c hc)
  rw [h1]
  simp [nat_to_str]

/-- One heap bump takes the canonical heap string for `m` to the one
for `m + 10`. -/
lemma bump_heap_heap_str (m : ℕ) :
    bump_heap (heap_str m) = some (heap_str (m + 10)) := by
  rw [bump_heap, strip_g_heap_str, str_to_nat_nat_to_str]
  rfl

lemma heap_after_heap_str (N m : ℕ) :
    heap_after N (heap_str m) = some (heap_str (m + 10 * N)) := by
  induction N generalizing m with
  | zero => simp [heap_after]
  | succ N ih =>
    rw [heap_after, bump_heap_heap_str, Option.some_bind, ih]
    congr 2
    omega

/-- C4: heap growth is monotonic and deterministic.  `N` consecutive
`BeagleHeapError` classifications (the identical handler of the outer
`run` loop and the inner `filter_window` sub-loop) turn heap string
`str(m) + 'g'` into `str(m + 10 * N) + 'g'`; the numeric value never
decreases; and one out-of-memory failure with heap `"5g"` makes the
next invocation use `"15g"`. -/
theorem heap_growth (m N : ℕ) :
    heap_after N (heap_str m) = some (heap_str (m + 10 * N)) ∧
    m ≤ m + 10 * N ∧
    bump_heap "5g" = some "15g" :=
  ⟨heap_after_heap_str N m, by omega, rfl⟩

/-! ### Supervisor lemmas -/

lemma watch_beagle_ticks (T P : ℕ) (pfx : String) :
    ∀ (k : ℕ) (st : SupSt), 1 ≤ k → T ≤ st.total_waiting + k * P →
      (watch_beagle T P pfx st (List.replicate k BeagleEv.tick)).1
          = some Outcome.stallTimeout ∧
      (watch_beagle T P pfx st (List.replicate k BeagleEv.tick)).2.child_killed
          = true := by
  intro k
  induction k with
  | zero => omega
  | succ k ih =>
    intro st _ hT
    rw [List.replicate_succ]
    simp only [watch_beagle]
    by_cases hth : T ≤ st.total_waiting + P
    · rw [if_pos hth]
      exact ⟨rfl, rfl⟩
    · rw [if_neg hth]
      have hk1 : 1 ≤ k := by
        rcases Nat.eq_zero_or_pos k with rfl | h
        · simp only [Nat.mul_comm] at hT
          omega
        · exact h
      refine ih { st with total_waiting := st.total_waiting + P } hk1 ?_
      show T ≤ st.total_waiting + P + k * P
      have : st.total_waiting + (k + 1) * P = st.total_waiting + P + k * P := by ring
      omega

/-- C3 counterexample: the stall-wait counter is NOT reset on every
output line received before the timeout is reached.  A line starting
with `Window` that fails the window regex (here `"Window oops"`) makes
`_parse_current_info` raise an uncaught `TypeError` before the
`self.total_waiting = 0` statement: the supervisor aborts fatally with
the counter still at its old value 5 (below the timeout 10). -/
theorem watch_beagle_reset_cex :
    (watch_beagle 10 1 "out" ⟨5, true, false, []⟩
        [BeagleEv.line "Window oops"]).1 = some Outcome.fatalParse ∧
    (watch_beagle 10 1 "out" ⟨5, true, false, []⟩
        [BeagleEv.line "Window oops"]).2.total_waiting = 5 ∧
    ¬ (watch_beagle 10 1 "out" ⟨5, true, false, []⟩
        [BeagleEv.line "Window oops"]).2.total_waiting = 0 := by
  decide

/-- C3 (amended): for every stall timeout `T >= 1` and poll interval
`P >= 1`, an invocation of `watch_beagle` whose job produces no output
for at least `T` seconds (`k` consecutive poll timeouts with
`k * P >= T`) returns exactly one `BeagleTimeoutError`, after killing
the child; and `total_waiting` is reset to 0 on any output line that
`_parse_current_info` handles without error — on a malformed
`Window`/`Reference samples:`/`Study markers:` line the supervisor
instead crashes fatally without resetting the counter. -/
theorem watch_beagle_stall (T P : ℕ) (pfx : String) (hP : 1 ≤ P) (hT : 1 ≤ T)
    (k : ℕ) (hk : T ≤ k * P) (st : SupSt) :
    ((watch_beagle T P pfx st (List.replicate k BeagleEv.tick)).1
        = some Outcome.stallTimeout ∧
     (watch_beagle T P pfx st (List.replicate k BeagleEv.tick)).2.child_killed
        = true) ∧
    (∀ (st2 : SupSt) (s : String) (rest : List BeagleEv),
      s ≠ "" → parse_current_info s = ParseResult.ok →
      watch_beagle T P pfx st2 (BeagleEv.line s :: rest)
        = watch_beagle T P pfx { st2 with total_waiting := 0 } rest) ∧
    (∀ (st2 : SupSt) (s : String) (rest : List BeagleEv),
      s ≠ "" → parse_current_info s = ParseResult.fatal →
      watch_beagle T P pfx st2 (BeagleEv.line s :: rest)
        = (some Outcome.fatalParse, st2)) := by
  refine ⟨?_, ?_, ?_⟩
  · have hk1 : 1 ≤ k := by
      rcases Nat.eq_zero_or_pos k with rfl | h
      · simp at hk; omega
      · exact h
    exact watch_beagle_ticks T P pfx k st hk1 (by omega)
  · intro st2 s rest hs hp
    rw [watch_beagle, if_neg hs, hp]
  · intro st2 s rest hs hp
    rw [watch_beagle, if_neg hs, hp]

theorem watch_beagle_stall_w :
    (watch_beagle 3 1 "out" ⟨0, true, false, []⟩
        (List.replicate 3 BeagleEv.tick)).1 = some Outcome.stallTimeout ∧
    watch_beagle 3 1 "out" ⟨7, true, false, []⟩
        [BeagleEv.line "Window 1 (chr1:1-100)"]
      = watch_beagle 3 1 "out" ⟨0, true, false, []⟩ [] ∧
    watch_beagle 3 1 "out" ⟨1, true, false, []⟩ [BeagleEv.line "Window oops"]
      = (some Outcome.fatalParse, ⟨1, true, false, []⟩) :=
  ⟨(watch_beagle_stall 3 1 "out" (by decide) (by decide) 3 (by decide)
      ⟨0, true, false, []⟩).1.1,
   (watch_beagle_stall 3 1 "out" (by decide) (by decide) 3 (by decide)
      ⟨0, true, false, []⟩).2.1 ⟨7, true, false, []⟩ _ _ (by decide) (by decide),
   (watch_beagle_stall 3 1 "out" (by decide) (by decide) 3 (by decide)
      ⟨0, true, false, []⟩).2.2 ⟨1, true, false, []⟩ _ _ (by decide) (by decide)⟩

/-- C6: whenever `watch_beagle` classifies a stall, the partial output
artifacts `out_prefix + '.vcf.gz'` and `out_prefix + '.log'` are gone
from disk in the state in which `BeagleTimeoutError` is raised. -/
theorem watch_beagle_deletes_artifacts (T P : ℕ) (pfx : String) (st : SupSt)
    (evs : List BeagleEv) (st2 : SupSt)
    (h : watch_beagle T P pfx st evs = (some Outcome.stallTimeout, st2)) :
    pfx ++ ".vcf.gz" ∉ st2.files ∧ pfx ++ ".log" ∉ st2.files := by
  induction evs generalizing st with
  | nil => simp [watch_beagle] at h
  | cons e rest ih =>
    cases e with
    | line s =>
      simp only [watch_beagle] at h
      by_cases hs : s = ""
      · rw [if_pos hs] at h
        simpa using congrArg Prod.fst h
      · rw [if_neg hs] at h
        cases hp : parse_current_info s with
        | ok =>
          rw [hp] at h
          exact ih _ h
        | oom =>
          rw [hp] at h
          simpa using congrArg Prod.fst h
        | fatal =>
          rw [hp] at h
          simpa using congrArg Prod.fst h
    | tick =>
      simp only [watch_beagle] at h
      by_cases hth : T ≤ st.total_waiting + P
      · rw [if_pos hth] at h
        have h2 := congrArg Prod.snd h
        simp only at h2
        rw [← h2]
        simp [List.mem_filter]
      · rw [if_neg hth] at h
        exact ih _ h

theorem watch_beagle_deletes_artifacts_w :
    ("o" ++ ".vcf.gz") ∉ (⟨1, true, true, ["keep"]⟩ : SupSt).files ∧
    ("o" ++ ".log") ∉ (⟨1, true, true, ["keep"]⟩ : SupSt).files :=
  watch_beagle_deletes_artifacts 1 1 "o"
    ⟨0, true, false, ["o.vcf.gz", "o.log", "keep"]⟩ [BeagleEv.tick]
    ⟨1, true, true, ["keep"]⟩ (by decide)

/-- C9 counterexample: a stall exit of `watch_beagle` kills the child
but leaves `self.process` set — the handle is not cleared on the
`BeagleTimeoutError` path, so the claim that every classified-failure
exit clears the handle is false on the code. -/
theorem watch_beagle_handle_cex :
    (watch_beagle 1 1 "out" ⟨0, true, false, []⟩ [BeagleEv.tick]).1
        = some Outcome.stallTimeout ∧
    (watch_beagle 1 1 "out" ⟨0, true, false, []⟩ [BeagleEv.tick]).2.handle
        = true := by
  decide

/-- C9 (amended): the process handle is cleared exactly on the natural
exit path (`Completed`, i.e. end-of-stream); on every other exit
(`BeagleTimeoutError`, `BeagleHeapError`, fatal parse error) the
handle keeps its previous value and is never cleared. -/
theorem watch_beagle_handle (T P : ℕ) (pfx : String) (st : SupSt)
    (evs : List BeagleEv) (o : Outcome) (st2 : SupSt)
    (h : watch_beagle T P pfx st evs = (some o, st2)) :
    (o = Outcome.completed → st2.handle = false) ∧
    (o ≠ Outcome.completed → st2.handle = st.handle) := by
  induction evs generalizing st with
  | nil => simp [watch_beagle] at h
  | cons e rest ih =>
    cases e with
    | line s =>
      simp only [watch_beagle] at h
      by_cases hs : s = ""
      · rw [if_pos hs] at h
        have h1 := congrArg Prod.fst h
        have h2 := congrArg Prod.snd h
        simp only at h1 h2
        have ho : o = Outcome.completed := by
          have := Option.some.inj h1
          exact this.symm
        subst ho
        rw [← h2]
        exact ⟨fun _ => rfl, fun hno => absurd rfl hno⟩
      · rw [if_neg hs] at h
        cases hp : parse_current_info s with
        | ok =>
          rw [hp] at h
          have := ih _ h
          simpa using this
        | oom =>
          rw [hp] at h
          have h1 := congrArg Prod.fst h
          have h2 := congrArg Prod.snd h
          simp only at h1 h2
          have ho : o = Outcome.memoryExhausted := (Option.some.inj h1).symm
          subst ho
          rw [← h2]
          exact ⟨fun hc => Outcome.noConfusion hc, fun _ => rfl⟩
        | fatal =>
          rw [hp] at h
          have h1 := congrArg Prod.fst h
          have h2 := congrArg Prod.snd h
          simp only at h1 h2
          have ho : o = Outcome.fatalParse := (Option.some.inj h1).symm
          subst ho
          rw [← h2]
          exact ⟨fun hc => Outcome.noConfusion hc, fun _ => rfl⟩
    | tick =>
      simp only [watch_beagle] at h
      by_cases hth : T ≤ st.total_waiting + P
      · rw [if_pos hth] at h
        have h1 := congrArg Prod.fst h
        have h2 := congrArg Prod.snd h
        simp only at h1 h2
        have ho : o = Outcome.stallTimeout := (Option.some.inj h1).symm
        subst ho
        rw [← h2]
        exact ⟨fun hc => Outcome.noConfusion hc, fun _ => rfl⟩
      · rw [if_neg hth] at h
        have := ih _ h
        simpa using this

theorem watch_beagle_handle_w :
    ((Outcome.completed = Outcome.completed →
        (⟨5, false, false, []⟩ : SupSt).handle = false) ∧
     (Outcome.completed ≠ Outcome.completed →
        (⟨5, false, false, []⟩ : SupSt).handle
          = (⟨5, true, false, []⟩ : SupSt).handle)) :=
  watch_beagle_handle 9 1 "out" ⟨5, true, false, []⟩ [BeagleEv.line ""]
    Outcome.completed ⟨5, false, false, []⟩ (by decide)

/-! ### Record stream reader text lemmas -/

lemma head_dropWhile_not (p : Char → Bool) (l : List Char) (c : Char)
    (h : (l.dropWhile p).head? = some c) : p c = false := by
  induction l with
  | nil => simp [List.dropWhile] at h
  | cons a l ih =>
    rw [List.dropWhile_cons] at h
    by_cases hp : p a = true
    · rw [if_pos hp] at h
      exact ih h
    · rw [if_neg hp] at h
      simp only [List.head?_cons, Option.some.injEq] at h
      subst h
      simpa using hp

lemma getLast_dropWhile (p : Char → Bool) (l : List Char)
    (h : l.dropWhile p ≠ []) : (l.dropWhile p).getLast? = l.getLast? := by
  induction l with
  | nil => simp [List.dropWhile] at h
  | cons a l ih =>
    rw [List.dropWhile_cons]
    by_cases hp : p a = true
    · rw [List.dropWhile_cons, if_pos hp] at h
      rw [if_pos hp, ih h]
      have hl : l ≠ [] := by
        intro hnil
        subst hnil
        simp [List.dropWhile] at h
      obtain ⟨b, l2, rfl⟩ := List.exists_cons_of_ne_nil hl
      rw [List.getLast?_cons_cons]
    · rw [if_neg hp]

/-- C10: every line yielded by the `current_vcf_lines` read loop is
non-empty and carries no leading or trailing whitespace — lines are
stripped and blank lines are elided from the stream. -/
theorem current_vcf_lines_text_clean (raw : List String) (l : String)
    (h : l ∈ current_vcf_lines_text raw) :
    l ≠ "" ∧
    (∀ c, l.data.head? = some c → py_isspace c = false) ∧
    (∀ c, l.data.getLast? = some c → py_isspace c = false) := by
  rw [current_vcf_lines_text, List.mem_filter] at h
  obtain ⟨hmem, hne⟩ := h
  have hne2 : l ≠ "" := by simpa using hne
  obtain ⟨r, hr, rfl⟩ := List.mem_map.mp hmem
  refine ⟨hne2, ?_, ?_⟩
  · intro c hc
    have hdata : (py_strip r).data
        = ((r.data.dropWhile py_isspace).reverse.dropWhile py_isspace).reverse :=
      rfl
    rw [hdata, List.head?_reverse] at hc
    have hA : (r.data.dropWhile py_isspace).reverse.dropWhile py_isspace ≠ [] := by
      intro hnil
      rw [hnil] at hc
      simp at hc
    rw [getLast_dropWhile _ _ hA, List.getLast?_reverse] at hc
    exact head_dropWhile_not _ _ _ hc
  · intro c hc
    have hdata : (py_strip r).data
        = ((r.data.dropWhile py_isspace).reverse.dropWhile py_isspace).reverse :=
      rfl
    rw [hdata, List.getLast?_reverse] at hc
    exact head_dropWhile_not _ _ _ hc

theorem current_vcf_lines_text_clean_w :
    ("a" : String) ≠ "" ∧ py_isspace 'a' = false :=
  ⟨(current_vcf_lines_text_clean [" a ", " ", ""] "a" (by decide)).1,
   (current_vcf_lines_text_clean [" a ", " ", ""] "a" (by decide)).2.1 'a' rfl⟩

/-! ### Window filter lemmas -/

lemma collect_scores_eq_map (fld : String) (recs : List VcfRecord)
    (h : ∀ r ∈ recs, (rec_scores fld r).length = 1) :
    collect_scores fld recs = recs.map (score1 fld) := by
  induction recs with
  | nil => rfl
  | cons r rs ih =>
    have h1 : rec_scores fld r = [score1 fld r] := by
      obtain ⟨a, ha⟩ := List.length_eq_one.mp (h r (by simp))
      rw [ha, score1, ha]
      rfl
    rw [collect_scores, List.flatMap_cons, h1, List.map_cons]
    have := ih (fun r2 hr2 => h r2 (by simp [hr2]))
    rw [collect_scores] at this
    rw [this]
    rfl

lemma zip_self_map (recs : List VcfRecord) (g : VcfRecord → ℚ) :
    recs.zip (recs.map g) = recs.map (fun r => (r, g r)) := by
  induction recs with
  | nil => rfl
  | cons a l ih =>
    rw [List.map_cons, List.zip_cons_cons, ih, List.map_cons]

lemma length_filter_split (l : List VcfRecord) (p : VcfRecord → Bool) :
    (l.filter p).length + (l.filter (fun r => !(p r))).length = l.length := by
  induction l with
  | nil => rfl
  | cons a l ih =>
    rw [List.filter_cons, List.filter_cons]
    by_cases h : p a = true
    · rw [if_pos h, if_neg (by simp [h])]
      simp only [List.length_cons]
      omega
    · rw [if_neg h, if_pos (by simp [Bool.not_eq_true] at h ⊢; exact h)]
      simp only [List.length_cons]
      omega

/-- C1: the window filter is an exact quantile partition.  When every
window record carries the quality field exactly once and the drop
fraction is in `[0,1)`, `split_out_current_window` computes the
linear-interpolation `f`-quantile `q` of the collected scores, retains
exactly the records with score `>= q` (in original order), drops
exactly the records with score `< q`, reports the dropped count, and
dropped + retained = total scored records. -/
theorem split_out_partition (fld : String) (f : ℚ) (recs : List VcfRecord)
    (hne : recs ≠ [])
    (hsc : ∀ r ∈ recs, (rec_scores fld r).length = 1)
    (hf0 : 0 ≤ f) (hf1 : f < 1) :
    ∃ q, np_quantile (collect_scores fld recs) f = some q ∧
      split_out_current_window fld f recs
        = some (recs.filter (fun r => decide (q ≤ score1 fld r)),
                recs.filter (fun r => decide (¬ q ≤ score1 fld r)),
                (recs.filter (fun r => decide (¬ q ≤ score1 fld r))).length) ∧
      (recs.filter (fun r => decide (q ≤ score1 fld r))).length
        + (recs.filter (fun r => decide (¬ q ≤ score1 fld r))).length
        = recs.length := by
  have hmap := collect_scores_eq_map fld recs hsc
  have hscne : collect_scores fld recs ≠ [] := by
    rw [hmap]
    simpa using hne
  obtain ⟨q, hq⟩ : ∃ q, np_quantile (collect_scores fld recs) f = some q := by
    rw [np_quantile, if_neg (by simpa [List.isEmpty_iff] using hscne)]
    exact ⟨_, rfl⟩
  refine ⟨q, hq, ?_, ?_⟩
  · simp only [split_out_current_window, hq, Option.map_some', Option.some.injEq]
    rw [hmap, zip_self_map]
    rw [List.filter_map, List.filter_map, List.map_map, List.map_map,
      List.length_map]
    have hfst : (Prod.fst ∘ fun r => (r, score1 fld r)) = @id VcfRecord := rfl
    rw [hfst, List.map_id, List.map_id]
    rfl
  · have := length_filter_split recs (fun r => decide (q ≤ score1 fld r))
    have heq : (fun r => !(decide (q ≤ score1 fld r)))
        = (fun r => decide (¬ q ≤ score1 fld r)) := by
      funext r
      rw [decide_not]
    rw [heq] at this
    exact this

theorem split_out_partition_w :
    ∃ q, np_quantile
        (collect_scores "VQSLOD" [⟨"chr1", 15, ".", [("VQSLOD", 1)]⟩]) 0
        = some q ∧
      split_out_current_window "VQSLOD" 0 [⟨"chr1", 15, ".", [("VQSLOD", 1)]⟩]
        = some (List.filter (fun r => decide (q ≤ score1 "VQSLOD" r))
                  [⟨"chr1", 15, ".", [("VQSLOD", 1)]⟩],
                List.filter (fun r => decide (¬ q ≤ score1 "VQSLOD" r))
                  [⟨"chr1", 15, ".", [("VQSLOD", 1)]⟩],
                (List.filter (fun r => decide (¬ q ≤ score1 "VQSLOD" r))
                  [⟨"chr1", 15, ".", [("VQSLOD", 1)]⟩]).length) ∧
      (List.filter (fun r => decide (q ≤ score1 "VQSLOD" r))
          [⟨"chr1", 15, ".", [("VQSLOD", 1)]⟩]).length
        + (List.filter (fun r => decide (¬ q ≤ score1 "VQSLOD" r))
            [⟨"chr1", 15, ".", [("VQSLOD", 1)]⟩]).length = 1 :=
  split_out_partition "VQSLOD" 0 [⟨"chr1", 15, ".", [("VQSLOD", 1)]⟩]
    (by decide) (by decide) (le_refl 0) (by decide)

lemma np_quantile_const (s : List ℚ) (f c : ℚ) (hs : s ≠ [])
    (hc : ∀ x ∈ s, x = c) (hf0 : 0 ≤ f) (hf1 : f < 1) :
    np_quantile s f = some c := by
  have hperm := List.perm_insertionSort (· ≤ ·) s
  have hlen : (s.insertionSort (· ≤ ·)).length = s.length := hperm.length_eq
  have hmem : ∀ x ∈ s.insertionSort (· ≤ ·), x = c :=
    fun x hx => hc x (hperm.mem_iff.mp hx)
  have hn1 : 1 ≤ s.length := List.length_pos.mpr hs
  have hcast : (1 : ℚ) ≤ (s.length : ℚ) := by exact_mod_cast hn1
  have h0 : (0 : ℚ) ≤ f * ((s.length : ℚ) - 1) :=
    mul_nonneg hf0 (by linarith)
  have hub : f * ((s.length : ℚ) - 1) ≤ (s.length : ℚ) - 1 := by
    calc f * ((s.length : ℚ) - 1) ≤ 1 * ((s.length : ℚ) - 1) :=
          mul_le_mul_of_nonneg_right hf1.le (by linarith)
      _ = (s.length : ℚ) - 1 := one_mul _
  have hfl0 : 0 ≤ Int.floor (f * ((s.length : ℚ) - 1)) :=
    Int.floor_nonneg.mpr h0
  have hfl : Int.floor (f * ((s.length : ℚ) - 1)) ≤ (s.length : ℤ) - 1 := by
    have h3 : ((s.length : ℚ) - 1) = (((s.length : ℤ) - 1 : ℤ) : ℚ) := by
      push_cast
      ring
    have h5 : Int.floor ((s.length : ℚ) - 1) = (s.length : ℤ) - 1 := by
      rw [h3, Int.floor_intCast]
    exact le_trans (Int.floor_le_floor hub) (le_of_eq h5)
  have hi : (Int.floor (f * ((s.length : ℚ) - 1))).toNat
      < (s.insertionSort (· ≤ ·)).length := by
    rw [hlen]
    omega
  rw [np_quantile, if_neg (by simpa [List.isEmpty_iff] using hs)]
  simp only [Option.some.injEq]
  rw [List.getD_eq_getElem _ _ hi]
  have hlo : (s.insertionSort (· ≤ ·))[(Int.floor (f * ((s.length : ℚ) - 1))).toNat] = c :=
    hmem _ (List.getElem_mem hi)
  rw [hlo]
  by_cases hi2 : (Int.floor (f * ((s.length : ℚ) - 1))).toNat + 1
      < (s.insertionSort (· ≤ ·)).length
  · rw [List.getD_eq_getElem _ _ hi2]
    rw [hmem _ (List.getElem_mem hi2)]
    ring
  · rw [List.getD_eq_default _ _ (by omega)]
    ring

/-- C8: when all collected quality scores are equal, the quantile
cutoff equals that common value and the window filter drops zero
records — every record is retained and the dropped count is 0. -/
theorem split_out_all_equal (fld : String) (f c : ℚ) (recs : List VcfRecord)
    (hne : recs ≠ [])
    (hsc : ∀ r ∈ recs, (rec_scores fld r).length = 1)
    (hall : ∀ x ∈ collect_scores fld recs, x = c)
    (hf0 : 0 ≤ f) (hf1 : f < 1) :
    np_quantile (collect_scores fld recs) f = some c ∧
    split_out_current_window fld f recs = some (recs, [], 0) := by
  have hmap := collect_scores_eq_map fld recs hsc
  have hscne : collect_scores fld recs ≠ [] := by
    rw [hmap]
    simpa using hne
  have hq := np_quantile_const (collect_scores fld recs) f c hscne hall hf0 hf1
  refine ⟨hq, ?_⟩
  simp only [split_out_current_window, hq, Option.map_some', Option.some.injEq]
  have hlenz : recs.length ≤ (collect_scores fld recs).length := by
    rw [hmap, List.length_map]
  have hsnd : ∀ p ∈ recs.zip (collect_scores fld recs), p.2 = c := by
    intro p hp
    rcases p with ⟨r, x⟩
    exact hall x (List.of_mem_zip hp).2
  have hkeep : (recs.zip (collect_scores fld recs)).filter
      (fun p => decide (c ≤ p.2)) = recs.zip (collect_scores fld recs) := by
    rw [List.filter_eq_self]
    intro p hp
    rw [hsnd p hp]
    simp
  have hdrop : (recs.zip (collect_scores fld recs)).filter
      (fun p => decide (¬ c ≤ p.2)) = [] := by
    rw [List.filter_eq_nil_iff]
    intro p hp
    rw [hsnd p hp]
    simp
  rw [hkeep, hdrop, List.map_fst_zip recs _ hlenz]
  rfl

theorem split_out_all_equal_w :
    np_quantile (collect_scores "VQSLOD"
        [⟨"chr1", 15, ".", [("VQSLOD", 3)]⟩,
         ⟨"chr1", 16, ".", [("VQSLOD", 3)]⟩]) 0 = some 3 ∧
    split_out_current_window "VQSLOD" 0
        [⟨"chr1", 15, ".", [("VQSLOD", 3)]⟩,
         ⟨"chr1", 16, ".", [("VQSLOD", 3)]⟩]
      = some ([⟨"chr1", 15, ".", [("VQSLOD", 3)]⟩,
               ⟨"chr1", 16, ".", [("VQSLOD", 3)]⟩], [], 0) :=
  split_out_all_equal "VQSLOD" 0 3
    [⟨"chr1", 15, ".", [("VQSLOD", 3)]⟩, ⟨"chr1", 16, ".", [("VQSLOD", 3)]⟩]
    (by decide) (by decide) (by decide) (le_refl 0) (by decide)

/-! ### Output stitcher evidence -/

/-- A one-SNP record at position `p` whose INFO block is `VQSLOD=sc`. -/
def ex_rec (p : ℕ) (sc : ℚ) : VcfRecord :=
  ⟨"chr1", p, ".", [("VQSLOD", sc)]⟩

/-- A dataset with one record before, one inside and one after the
window `chr1:10-20`. -/
def ex_vcf : Vcf :=
  ⟨["#fileformat=VCFv4.2"], [ex_rec 5 1, ex_rec 15 1, ex_rec 30 1]⟩

/-- C2 fails on the code: the region-A query of `filter_window` runs
`current_vcf_lines(end=cur_window_start - 1)` whose `start` defaults
to `cur_window_start`, i.e. the empty range `chr1:10-9`, so the record
at position 5 — which the claim requires in region A — is absent from
the stitched dataset. -/
theorem filter_window_stitch_drops_region_a :
    filter_window_stitch ex_vcf "chr1" 10 20 [ex_rec 15 1]
      = ⟨ex_vcf.header, [ex_rec 15 1, ex_rec 30 1]⟩ ∧
    ex_rec 5 1 ∈ ex_vcf.recs ∧ (ex_rec 5 1).pos < 10 ∧
    ex_rec 5 1 ∉ (filter_window_stitch ex_vcf "chr1" 10 20 [ex_rec 15 1]).recs := by
  decide

lemma split_out_single :
    split_out_current_window "VQSLOD" 0 [ex_rec 15 1]
      = some ([ex_rec 15 1], [], 0) := by
  have hcol : collect_scores "VQSLOD" [ex_rec 15 1] = [1] := rfl
  have hq : np_quantile [(1 : ℚ)] 0 = some 1 :=
    np_quantile_const [1] 0 1 (by decide) (by decide) (le_refl 0) (by decide)
  simp only [split_out_current_window, hcol, hq, Option.map_some']
  rfl

/-- C7 fails on the code: a no-op filtering pass (zero records
dropped) on window `chr1:10-20` of `ex_vcf` stitches to a dataset
missing the record at position 5, hence not record-for-record equal to
the original dataset restricted to the overall span. -/
theorem filter_window_stitch_not_noop :
    split_out_current_window "VQSLOD" 0 [ex_rec 15 1]
      = some ([ex_rec 15 1], [], 0) ∧
    view_recs ex_vcf "chr1" 0 none = ex_vcf.recs ∧
    (filter_window_stitch ex_vcf "chr1" 10 20 [ex_rec 15 1]).recs
      = [ex_rec 15 1, ex_rec 30 1] ∧
    (filter_window_stitch ex_vcf "chr1" 10 20 [ex_rec 15 1]).recs
      ≠ ex_vcf.recs := by
  refine ⟨split_out_single, ?_, ?_, ?_⟩ <;> decide

/-! ### Missing quality field evidence -/

/-- A record whose INFO block has no `VQSLOD` entry. -/
def nofield_rec : VcfRecord := ⟨"chr1", 11, ".", [("DP", 10)]⟩

/-- A record carrying `VQSLOD=1`. -/
def scored_rec : VcfRecord := ⟨"chr1", 12, ".", [("VQSLOD", 1)]⟩

/-- C5 fails on the code: with a record lacking the quality field,
`split_out_current_window` completes normally (no error is surfaced);
`zip(lines, scores)` misaligns, so the unscored record is retained
carrying the scored record's score, while the scored record is lost
from both the retained and the dropped output. -/
theorem split_out_missing_field_misattributes :
    split_out_current_window "VQSLOD" 0 [nofield_rec, scored_rec]
      = some ([nofield_rec], [], 0) ∧
    rec_scores "VQSLOD" nofield_rec = [] ∧
    scored_rec ∈ [nofield_rec, scored_rec] ∧
    scored_rec ∉ [nofield_rec] := by
  refine ⟨?_, by decide, by decide, by decide⟩
  have hcol : collect_scores "VQSLOD" [nofield_rec, scored_rec] = [1] := rfl
  have hq : np_quantile [(1 : ℚ)] 0 = some 1 :=
    np_quantile_const [1] 0 1 (by decide) (by decide) (le_refl 0) (by decide)
  simp only [split_out_current_window, hcol, hq, Option.map_some']
  rfl

end Watchdog
